import Mathlib

/-!
Verification of the CIR-to-LLVM lowering in clang/lib/CIR/LowerToLLVM.cpp.

The file shallowly embeds the IR data model (operations, attributes, types,
regions), the rewrite patterns of the lowering, the conversion driver, the
three lowering passes and the pipeline orchestration, and proves theorems
about them. Definitions are translated from the C++ source; the parts of
the conversion machinery that the source only calls (the dialect-conversion
driver, Region::cloneInto, the pass manager) are modelled from the design
specification and marked as such in their doc comments.
-/

/-- Types of the embedded IR: integers, pointers, ranked memref buffers and
function types. MemRefType::get({}, elem) is `Ty.memref [] elem`. -/
inductive Ty where
  | i (width : Nat)
  | ptr (elem : Ty)
  | memref (shape : List Nat) (elem : Ty)
deriving Repr, DecidableEq

/-- A function type: argument types and result types. -/
structure FnTy where
  args : List Ty
  res : List Ty
deriving Repr, DecidableEq

/-- Rank of a memref type: the length of its shape list. -/
def Ty.rank : Ty → Option Nat
  | Ty.memref shape _ => some shape.length
  | _ => none

/-- Element type of a memref type. -/
def Ty.elemOf : Ty → Option Ty
  | Ty.memref _ elem => some elem
  | _ => none

/-- Attribute values: symbol references, integer literals, alignments and
type attributes. -/
inductive Attr where
  | sym (s : String)
  | intLit (v : Int)
  | alignment (n : Nat)
  | ty (t : Ty)
deriving Repr, DecidableEq

/-- A flat operation of the IR: opcode name, operand value ids, result value
ids, result types, and named attributes. -/
structure OpF where
  name : String
  operands : List Nat
  results : List Nat
  resultTypes : List Ty
  attrs : List (String × Attr)
deriving Repr, DecidableEq

/-- Modelled from the spec: mlir::SymbolRefAttr::get(op) and the cir.call
operation definition (CIRDialect, not under src/) resolve the callee symbol
of a call operation; per the spec the call lowering preserves the callee
symbol, so this reads the callee symbol attribute of the call. -/
def symbolRefAttrGet (op : OpF) : Option Attr :=
  op.attrs.lookup "callee"

/-- CIRCallLowering.matchAndRewrite: rewrites cir.call into func.call via
replaceOpWithNewOp with SymbolRefAttr::get(op), op.getResultTypes() and
op.getArgOperands(). -/
def cirCallLowering (op : OpF) : Option OpF :=
  if op.name = "cir.call" then
    match symbolRefAttrGet op with
    | some calleeAttr =>
      some { name := "func.call", operands := op.operands, results := op.results,
             resultTypes := op.resultTypes, attrs := [("callee", calleeAttr)] }
    | none => none
  else none

/-- CIRReturnLowering.matchAndRewrite: rewrites cir.return into func.return
with the original result types and operands. -/
def cirReturnLowering (op : OpF) : Option OpF :=
  if op.name = "cir.return" then
    some { name := "func.return", operands := op.operands, results := op.results,
           resultTypes := op.resultTypes, attrs := [] }
  else none

/-- CIRAllocaLowering.matchAndRewrite: builds MemRefType::get({}, op.type())
and rewrites cir.alloca into memref.alloca carrying op.alignmentAttr(); a
null alignment attribute is simply absent. The allocated element type is the
alloca's type attribute. -/
def cirAllocaLowering (op : OpF) : Option OpF :=
  if op.name = "cir.alloca" then
    match op.attrs.lookup "type" with
    | some (Attr.ty elemTy) =>
      some { name := "memref.alloca", operands := [], results := op.results,
             resultTypes := [Ty.memref [] elemTy],
             attrs :=
               match op.attrs.lookup "alignment" with
               | some a => [("alignment", a)]
               | none => [] }
    | _ => none
  else none

/-- CIRLoadLowering.matchAndRewrite: rewrites cir.load into memref.load with
operands[0], the address, as the sole operand. -/
def cirLoadLowering (op : OpF) : Option OpF :=
  if op.name = "cir.load" then
    match op.operands with
    | addr :: _ =>
      some { name := "memref.load", operands := [addr], results := op.results,
             resultTypes := op.resultTypes, attrs := [] }
    | [] => none
  else none

/-- CIRStoreLowering.matchAndRewrite: rewrites cir.store into memref.store
with operands[0] (the stored value) first and operands[1] (the address)
second. -/
def cirStoreLowering (op : OpF) : Option OpF :=
  if op.name = "cir.store" then
    match op.operands with
    | v :: a :: _ =>
      some { name := "memref.store", operands := [v, a], results := op.results,
             resultTypes := op.resultTypes, attrs := [] }
    | _ => none
  else none

/-- CIRConstantLowering.matchAndRewrite: rewrites cir.cst into arith.constant
with op.getType() and op.value(). -/
def cirConstantLowering (op : OpF) : Option OpF :=
  if op.name = "cir.cst" then
    match op.attrs.lookup "value" with
    | some v =>
      some { name := "arith.constant", operands := [], results := op.results,
             resultTypes := op.resultTypes, attrs := [("value", v)] }
    | none => none
  else none

/-- C2: the call-lowering pattern produces a func.call whose callee symbol is
the original cir.call's callee symbol, whose argument operands are the
original operands in the original order and arity, and whose result types
equal the original result types. -/
theorem cirCallLowering_preserves (op op' : OpF)
    (hname : op.name = "cir.call")
    (h : cirCallLowering op = some op') :
    op'.name = "func.call" ∧
    op'.attrs.lookup "callee" = op.attrs.lookup "callee" ∧
    op'.operands = op.operands ∧
    op'.resultTypes = op.resultTypes := by
  simp only [cirCallLowering, hname, if_true, reduceIte] at h
  cases hc : symbolRefAttrGet op with
  | none => rw [hc] at h; exact absurd h (by simp)
  | some calleeAttr =>
    rw [hc] at h
    simp only [Option.some.injEq] at h
    subst h
    refine ⟨rfl, ?_, rfl, rfl⟩
    unfold symbolRefAttrGet at hc
    simp [List.lookup, hc]

/-- Concrete instance of the call-lowering theorem. -/
def callOp0 : OpF :=
  { name := "cir.call", operands := [10, 11, 12], results := [20],
    resultTypes := [Ty.i 32], attrs := [("callee", Attr.sym "f")] }

/-- Expected lowering of `callOp0`. -/
def callOut0 : OpF :=
  { name := "func.call", operands := [10, 11, 12], results := [20],
    resultTypes := [Ty.i 32], attrs := [("callee", Attr.sym "f")] }

theorem cirCallLowering_preserves_witness :
    callOp0.name = "cir.call" ∧ cirCallLowering callOp0 = some callOut0 ∧
    (callOut0.name = "func.call" ∧
     callOut0.attrs.lookup "callee" = callOp0.attrs.lookup "callee" ∧
     callOut0.operands = callOp0.operands ∧
     callOut0.resultTypes = callOp0.resultTypes) :=
  ⟨by decide, by decide,
   cirCallLowering_preserves callOp0 callOut0 (by decide) (by decide)⟩

/-- C5: the load and store patterns rewrite cir.load and cir.store 1:1 into
memref.load and memref.store, keeping the address operand first for loads
and the value operand first followed by the address operand for stores. -/
theorem cirLoadStoreLowering_operand_order :
    (∀ (op op' : OpF) (addr : Nat) (rest : List Nat),
       op.name = "cir.load" → op.operands = addr :: rest →
       cirLoadLowering op = some op' →
       op'.name = "memref.load" ∧ op'.operands = [addr] ∧
       op'.resultTypes = op.resultTypes) ∧
    (∀ (op op' : OpF) (v a : Nat) (rest : List Nat),
       op.name = "cir.store" → op.operands = v :: a :: rest →
       cirStoreLowering op = some op' →
       op'.name = "memref.store" ∧ op'.operands = [v, a]) := by
  constructor
  · intro op op' addr rest hname hops h
    simp only [cirLoadLowering, hname, hops, if_true, reduceIte,
      Option.some.injEq] at h
    subst h
    exact ⟨rfl, rfl, rfl⟩
  · intro op op' v a rest hname hops h
    simp only [cirStoreLowering, hname, hops, if_true, reduceIte,
      Option.some.injEq] at h
    subst h
    exact ⟨rfl, rfl⟩

/-- Concrete cir.load for the witness. -/
def loadOp0 : OpF :=
  { name := "cir.load", operands := [7], results := [8],
    resultTypes := [Ty.i 32], attrs := [] }

/-- Expected lowering of `loadOp0`. -/
def loadOut0 : OpF :=
  { name := "memref.load", operands := [7], results := [8],
    resultTypes := [Ty.i 32], attrs := [] }

/-- Concrete cir.store for the witness. -/
def storeOp0 : OpF :=
  { name := "cir.store", operands := [5, 7], results := [],
    resultTypes := [], attrs := [] }

/-- Expected lowering of `storeOp0`. -/
def storeOut0 : OpF :=
  { name := "memref.store", operands := [5, 7], results := [],
    resultTypes := [], attrs := [] }

theorem cirLoadStoreLowering_operand_order_witness :
    (loadOut0.name = "memref.load" ∧ loadOut0.operands = [7] ∧
     loadOut0.resultTypes = loadOp0.resultTypes) ∧
    (storeOut0.name = "memref.store" ∧ storeOut0.operands = [5, 7]) :=
  ⟨cirLoadStoreLowering_operand_order.1 loadOp0 loadOut0 7 []
     (by decide) (by decide) (by decide),
   cirLoadStoreLowering_operand_order.2 storeOp0 storeOut0 5 7 []
     (by decide) (by decide) (by decide)⟩

/-- C6: the alloca pattern produces a rank-0 memref allocation whose element
type is the original allocation's element type, carrying the original
alignment attribute unchanged when present. -/
theorem cirAllocaLowering_rank0 (op op' : OpF) (elemTy : Ty)
    (hname : op.name = "cir.alloca")
    (hty : op.attrs.lookup "type" = some (Attr.ty elemTy))
    (h : cirAllocaLowering op = some op') :
    op'.name = "memref.alloca" ∧
    op'.resultTypes = [Ty.memref [] elemTy] ∧
    op'.resultTypes.map Ty.rank = [some 0] ∧
    op'.resultTypes.map Ty.elemOf = [some elemTy] ∧
    (∀ a, op.attrs.lookup "alignment" = some a →
       op'.attrs.lookup "alignment" = some a) := by
  simp only [cirAllocaLowering, hname, hty, if_true, reduceIte,
    Option.some.injEq] at h
  subst h
  refine ⟨rfl, rfl, rfl, rfl, ?_⟩
  intro a ha
  rw [ha]
  simp [List.lookup]

/-- Concrete cir.alloca for the witness. -/
def allocaOp0 : OpF :=
  { name := "cir.alloca", operands := [], results := [3],
    resultTypes := [Ty.ptr (Ty.i 32)],
    attrs := [("type", Attr.ty (Ty.i 32)), ("alignment", Attr.alignment 4)] }

/-- Expected lowering of `allocaOp0`. -/
def allocaOut0 : OpF :=
  { name := "memref.alloca", operands := [], results := [3],
    resultTypes := [Ty.memref [] (Ty.i 32)],
    attrs := [("alignment", Attr.alignment 4)] }

theorem cirAllocaLowering_rank0_witness :
    allocaOut0.name = "memref.alloca" ∧
    allocaOut0.resultTypes = [Ty.memref [] (Ty.i 32)] ∧
    allocaOut0.resultTypes.map Ty.rank = [some 0] ∧
    allocaOut0.resultTypes.map Ty.elemOf = [some (Ty.i 32)] ∧
    (∀ a, allocaOp0.attrs.lookup "alignment" = some a →
       allocaOut0.attrs.lookup "alignment" = some a) := by
  have h := cirAllocaLowering_rank0 allocaOp0 allocaOut0 (Ty.i 32)
    (by decide) (by decide) (by decide)
  exact h

/-- Dialect namespace of an operation name: the prefix before the first dot. -/
def dialectOf (opName : String) : String :=
  String.mk (opName.toList.takeWhile (fun c => c != '.'))

/-- Legality classification of an operation kind by a conversion target. -/
inductive LegalKind where
  | legal
  | illegal
  | unknown
deriving Repr, DecidableEq

/-- A conversion target: operation kinds and dialects marked legal via
addLegalOp/addLegalDialect, and operation kinds marked illegal via
addIllegalOp. -/
structure TargetD where
  legalOps : List String
  legalDialects : List String
  illegalOps : List String
deriving Repr, DecidableEq

/-- Classification of an operation name: explicitly legal ops and ops of a
legal dialect are legal; explicitly illegal ops are illegal; the rest are
unknown. -/
def TargetD.classify (t : TargetD) (opName : String) : LegalKind :=
  if t.legalOps.contains opName || t.legalDialects.contains (dialectOf opName) then
    LegalKind.legal
  else if t.illegalOps.contains opName then LegalKind.illegal
  else LegalKind.unknown

/-- Conversion target of the first driving run of ConvertCIRToFuncPass:
builtin.module and func.func legal, cir.func illegal. -/
def fnTarget : TargetD :=
  { legalOps := ["builtin.module", "func.func"], legalDialects := [],
    illegalOps := ["cir.func"] }

/-- Conversion target of the second driving run of ConvertCIRToFuncPass:
builtin.module, func.return and func.call legal; cir.return and cir.call
illegal. -/
def retTarget : TargetD :=
  { legalOps := ["builtin.module", "func.return", "func.call"],
    legalDialects := [], illegalOps := ["cir.return", "cir.call"] }

/-- Conversion target of ConvertCIRToMemRefPass: builtin.module legal plus
the affine, arith, memref and func dialects. -/
def memrefTarget : TargetD :=
  { legalOps := ["builtin.module"],
    legalDialects := ["affine", "arith", "memref", "func"], illegalOps := [] }

/-- Conversion target of ConvertCIRToLLVMPass: an LLVMConversionTarget (the
llvm dialect is legal) plus addLegalOp<ModuleOp>. -/
def llvmTarget : TargetD :=
  { legalOps := ["builtin.module"], legalDialects := ["llvm"],
    illegalOps := [] }

/-- populateCIRToMemRefConversionPatterns: the alloca, load, store and
constant lowering patterns, in registration order. -/
def memrefPatterns : List (OpF → Option OpF) :=
  [cirAllocaLowering, cirLoadLowering, cirStoreLowering, cirConstantLowering]

/-- Patterns tried in registration order; the first that matches wins. -/
def tryPatterns (ps : List (OpF → Option OpF)) (op : OpF) : Option OpF :=
  match ps with
  | [] => none
  | p :: rest =>
    match p op with
    | some out => some out
    | none => tryPatterns rest op

/-- Modelled from the spec: one worklist sweep of the conversion driver
(applyPartialConversion / applyFullConversion are not under src/). Each
operation is skipped when the target already classifies it legal, rewritten
by the first matching pattern otherwise, and left untouched when no
pattern matches. Returns the rewritten module, the number of rewrites
performed, and whether any rewrite happened. -/
def convertStep (t : TargetD) (ps : List (OpF → Option OpF)) :
    List OpF → List OpF × Nat × Bool
  | [] => ([], 0, false)
  | op :: rest =>
    let r := convertStep t ps rest
    if t.classify op.name = LegalKind.legal then (op :: r.1, r.2.1, r.2.2)
    else
      match tryPatterns ps op with
      | some newOp => (newOp :: r.1, r.2.1 + 1, true)
      | none => (op :: r.1, r.2.1, r.2.2)

/-- Modelled from the spec: the driver's worklist fixed point — newly
inserted operations are re-examined until no rewrite applies, bounded by
fuel. Returns the rewritten module and the total rewrite count. -/
def convertFix (t : TargetD) (ps : List (OpF → Option OpF)) :
    Nat → List OpF → List OpF × Nat
  | 0, m => (m, 0)
  | fuel + 1, m =>
    let s := convertStep t ps m
    if s.2.2 then
      let r := convertFix t ps fuel s.1
      (r.1, s.2.1 + r.2)
    else (s.1, s.2.1)

/-- Conversion driving mode: partial conversion leaves unmatched operations
in place, full conversion additionally requires the final module to contain
only legal operations. -/
inductive ConvMode where
  | part
  | full
deriving Repr, DecidableEq

/-- Modelled from the spec: the conversion driver entry point
(applyPartialConversion / applyFullConversion, not under src/). Drives the
worklist fixed point, then performs the final legality check: in partial
mode only explicitly illegal operations that remain cause failure; in full
mode any remaining non-legal operation causes failure. The rewritten module
is returned in either case — rewrites are committed, there is no whole-run
rollback. -/
def applyConversion (mode : ConvMode) (fuel : Nat) (t : TargetD)
    (ps : List (OpF → Option OpF)) (m : List OpF) : List OpF × Nat × Bool :=
  let r := convertFix t ps fuel m
  match mode with
  | ConvMode.part =>
    (r.1, r.2, r.1.all (fun op => !(decide (t.classify op.name = LegalKind.illegal))))
  | ConvMode.full =>
    (r.1, r.2, r.1.all (fun op => decide (t.classify op.name = LegalKind.legal)))

/-- A sweep over an all-legal module rewrites nothing. -/
theorem convertStep_all_legal (t : TargetD) (ps : List (OpF → Option OpF))
    (m : List OpF) (h : ∀ op ∈ m, t.classify op.name = LegalKind.legal) :
    convertStep t ps m = (m, 0, false) := by
  induction m with
  | nil => rfl
  | cons op rest ih =>
    have hop := h op (by simp)
    have hrest : ∀ o ∈ rest, t.classify o.name = LegalKind.legal :=
      fun o ho => h o (by simp [ho])
    simp [convertStep, ih hrest, hop]

/-- The driver fixed point over an all-legal module rewrites nothing. -/
theorem convertFix_all_legal (t : TargetD) (ps : List (OpF → Option OpF))
    (fuel : Nat) (m : List OpF)
    (h : ∀ op ∈ m, t.classify op.name = LegalKind.legal) :
    convertFix t ps fuel m = (m, 0) := by
  cases fuel with
  | zero => rfl
  | succ f => simp [convertFix, convertStep_all_legal t ps m h]

/-- C7: running the full-conversion driver on a module that is already fully
legal for its conversion target performs zero rewrites, leaves the module
unchanged, and reports success. -/
theorem fullConversion_on_legal_module (fuel : Nat) (t : TargetD)
    (ps : List (OpF → Option OpF)) (m : List OpF)
    (h : ∀ op ∈ m, t.classify op.name = LegalKind.legal) :
    applyConversion ConvMode.full fuel t ps m = (m, 0, true) := by
  have hall : m.all (fun op => decide (t.classify op.name = LegalKind.legal)) = true := by
    rw [List.all_eq_true]
    intro op hop
    simpa using h op hop
  simp [applyConversion, convertFix_all_legal t ps fuel m h, hall]

/-- A module that is already fully legal for the final LLVM target. -/
def llvmModule0 : List OpF :=
  [{ name := "llvm.func", operands := [], results := [], resultTypes := [],
     attrs := [("sym_name", Attr.sym "main")] },
   { name := "llvm.return", operands := [], results := [], resultTypes := [],
     attrs := [] }]

theorem fullConversion_on_legal_module_witness :
    applyConversion ConvMode.full 3 llvmTarget [] llvmModule0 =
      (llvmModule0, 0, true) :=
  fullConversion_on_legal_module 3 llvmTarget [] llvmModule0 (by decide)

/-- An operation of a kind no pattern matches and no target legalizes. -/
def strayOp0 : OpF :=
  { name := "cir.stray", operands := [], results := [], resultTypes := [],
    attrs := [] }

/-- A module mixing a convertible alloca with a stray unconvertible op. -/
def demoModule : List OpF := [allocaOp0, strayOp0]

/-- C4: when a full-conversion run fails its final legality check, every
rewrite performed during the run is still committed: the returned module is
the same module partial conversion commits (no whole-run rollback), and a
concrete failing run returns the rewritten module, not the input. -/
theorem fullConversion_commits_on_failure :
    (∀ (fuel : Nat) (t : TargetD) (ps : List (OpF → Option OpF)) (m : List OpF),
       (applyConversion ConvMode.full fuel t ps m).1 =
         (applyConversion ConvMode.part fuel t ps m).1) ∧
    ((applyConversion ConvMode.full 4 memrefTarget memrefPatterns demoModule).2.2
        = false ∧
     (applyConversion ConvMode.full 4 memrefTarget memrefPatterns demoModule).1
        = [allocaOut0, strayOp0] ∧
     [allocaOut0, strayOp0] ≠ demoModule) := by
  refine ⟨fun fuel t ps m => rfl, by decide, by decide, by decide⟩

/-- Pattern set registered for the first driving run of ConvertCIRToFuncPass. -/
def fnPatternNames : List String := ["CIRFuncLowering"]

/-- Pattern set registered for the second driving run of
ConvertCIRToFuncPass. -/
def retPatternNames : List String := ["CIRReturnLowering", "CIRCallLowering"]

/-- Pattern set registered by ConvertCIRToMemRefPass via
populateCIRToMemRefConversionPatterns. -/
def memrefPatternNames : List String :=
  ["CIRAllocaLowering", "CIRLoadLowering", "CIRStoreLowering",
   "CIRConstantLowering"]

/-- Pattern sets registered by ConvertCIRToLLVMPass via the populate calls,
in registration order. -/
def llvmPatternNames : List String :=
  ["AffineToStd", "ArithmeticToLLVM", "SCFToControlFlow", "MemRefToLLVM",
   "FuncToLLVM"]

/-- ConvertCIRToFuncPass::runOnOperation, parametric over the external
conversion driver: a partial-conversion run over fnTarget with
CIRFuncLowering, then — with no early return in between — a second
partial-conversion run over retTarget with the return/call patterns on the
same module; signalPassFailure is called on either failure. -/
def convertCIRToFuncPassG {M : Type}
    (drive : ConvMode → TargetD → List String → M → M × Bool) (m : M) :
    M × Bool :=
  let r1 := drive ConvMode.part fnTarget fnPatternNames m
  let r2 := drive ConvMode.part retTarget retPatternNames r1.1
  (r2.1, r1.2 && r2.2)

/-- ConvertCIRToMemRefPass::runOnOperation, parametric over the external
conversion driver: one partial-conversion run over memrefTarget. -/
def convertCIRToMemRefPassG {M : Type}
    (drive : ConvMode → TargetD → List String → M → M × Bool) (m : M) :
    M × Bool :=
  let r := drive ConvMode.part memrefTarget memrefPatternNames m
  (r.1, r.2)

/-- ConvertCIRToLLVMPass::runOnOperation, parametric over the external
conversion driver: one full-conversion run over llvmTarget. -/
def convertCIRToLLVMPassG {M : Type}
    (drive : ConvMode → TargetD → List String → M → M × Bool) (m : M) :
    M × Bool :=
  let r := drive ConvMode.full llvmTarget llvmPatternNames m
  (r.1, r.2)

/-- The pass pipeline built by lowerFromCIRToLLVMIR: createConvertCIRToFuncPass,
createConvertCIRToMemRefPass, createConvertCIRToLLVMPass, added in this
order; the names are each pass's getArgument(). -/
def cirPassPipelineG {M : Type}
    (drive : ConvMode → TargetD → List String → M → M × Bool) :
    List (String × (M → M × Bool)) :=
  [("cir-to-func", convertCIRToFuncPassG drive),
   ("cir-to-memref", convertCIRToMemRefPassG drive),
   ("cir-to-llvm", convertCIRToLLVMPassG drive)]

/-- Modelled from the spec: the pass manager (mlir::PassManager::run is not
under src/) runs passes strictly in declaration order and any pass failure
transitions directly to Failed, aborting the remaining passes; the failure
reports the failing pass index. -/
def runPMFrom {M : Type} (i : Nat) :
    List (String × (M → M × Bool)) → M → M × Option Nat
  | [], m => (m, none)
  | (_, p) :: rest, m =>
    let r := p m
    if r.2 then runPMFrom (i + 1) rest r.1 else (r.1, some i)

/-- Run a pass pipeline from the first pass. -/
def runPM {M : Type} (passes : List (String × (M → M × Bool))) (m : M) :
    M × Option Nat :=
  runPMFrom 0 passes m

/-- Log of driving runs: mode, conversion target and pattern set of each. -/
abbrev DriveLog := List (ConvMode × TargetD × List String)

/-- An instrumented driver that records each driving run and succeeds. -/
def logDrive : ConvMode → TargetD → List String → DriveLog → DriveLog × Bool :=
  fun mode t ps log => (log ++ [(mode, t, ps)], true)

/-- C1: the pipeline built by lowerFromCIRToLLVMIR consists of exactly the
three passes cir-to-func, cir-to-memref, cir-to-llvm in this order, and an
instrumented run shows the first two passes drive only partial-conversion
runs while only the last pass drives a full-conversion run. -/
theorem pipeline_order_and_modes :
    (cirPassPipelineG logDrive).map Prod.fst =
      ["cir-to-func", "cir-to-memref", "cir-to-llvm"] ∧
    runPM (cirPassPipelineG logDrive) [] =
      ([(ConvMode.part, fnTarget, fnPatternNames),
        (ConvMode.part, retTarget, retPatternNames),
        (ConvMode.part, memrefTarget, memrefPatternNames),
        (ConvMode.full, llvmTarget, llvmPatternNames)], none) := by
  exact ⟨rfl, rfl⟩

/-- C9: ConvertCIRToFuncPass performs two sequential partial-conversion runs
on the same module within a single invocation, and the second run still
executes — its result is the pass's final module — even when the first run
failed and signalled pass failure. -/
theorem convertCIRToFuncPass_second_run_after_failure {M : Type}
    (drive : ConvMode → TargetD → List String → M → M × Bool) (m : M)
    (h : (drive ConvMode.part fnTarget fnPatternNames m).2 = false) :
    (convertCIRToFuncPassG drive m).1 =
      (drive ConvMode.part retTarget retPatternNames
        (drive ConvMode.part fnTarget fnPatternNames m).1).1 ∧
    (convertCIRToFuncPassG drive m).2 = false := by
  unfold convertCIRToFuncPassG
  exact ⟨rfl, by simp [h]⟩

/-- A driver that fails exactly the run over fnTarget. -/
def failFirstDrive : ConvMode → TargetD → List String → Nat → Nat × Bool :=
  fun _ t _ n => if t = fnTarget then (n + 1, false) else (n + 10, true)

theorem convertCIRToFuncPass_second_run_after_failure_witness :
    (convertCIRToFuncPassG failFirstDrive 0).1 =
      (failFirstDrive ConvMode.part retTarget retPatternNames
        (failFirstDrive ConvMode.part fnTarget fnPatternNames 0).1).1 ∧
    (convertCIRToFuncPassG failFirstDrive 0).2 = false :=
  convertCIRToFuncPass_second_run_after_failure failFirstDrive 0 (by decide)

/-- C8: if stage 1 of the pipeline succeeds and stage 2 (memory
legalization) fails, the pipeline stops with the module stage 2 left behind
and reports failure at pass index 1 — whatever the third stage is, so stage
3 never executes; in particular this is the result of the actual pipeline. -/
theorem pipeline_aborts_after_stage2_failure {M : Type}
    (drive : ConvMode → TargetD → List String → M → M × Bool) (m : M)
    (h1 : (convertCIRToFuncPassG drive m).2 = true)
    (h2 : (convertCIRToMemRefPassG drive (convertCIRToFuncPassG drive m).1).2
            = false) :
    (∀ p3 : M → M × Bool,
       runPM [("cir-to-func", convertCIRToFuncPassG drive),
              ("cir-to-memref", convertCIRToMemRefPassG drive),
              ("cir-to-llvm", p3)] m =
         ((convertCIRToMemRefPassG drive (convertCIRToFuncPassG drive m).1).1,
          some 1)) ∧
    runPM (cirPassPipelineG drive) m =
      ((convertCIRToMemRefPassG drive (convertCIRToFuncPassG drive m).1).1,
       some 1) := by
  have hstep : ∀ p3 : M → M × Bool,
      runPM [("cir-to-func", convertCIRToFuncPassG drive),
             ("cir-to-memref", convertCIRToMemRefPassG drive),
             ("cir-to-llvm", p3)] m =
        ((convertCIRToMemRefPassG drive (convertCIRToFuncPassG drive m).1).1,
         some 1) := by
    intro p3
    simp [runPM, runPMFrom, h1, h2]
  exact ⟨hstep, hstep (convertCIRToLLVMPassG drive)⟩

/-- A driver that fails exactly the run over memrefTarget. -/
def failSecondDrive : ConvMode → TargetD → List String → Nat → Nat × Bool :=
  fun _ t _ n => if t = memrefTarget then (n + 1, false) else (n + 10, true)

theorem pipeline_aborts_after_stage2_failure_witness :
    runPM (cirPassPipelineG failSecondDrive) 0 = (21, some 1) :=
  (pipeline_aborts_after_stage2_failure failSecondDrive 0
    (by decide) (by decide)).2

/-- Result of lowerFromCIRToLLVMIR: either a fatal error (report_fatal_error
terminates the process with a message) or a returned low-level module. -/
inductive LowerResult (L : Type) where
  | fatal (msg : String)
  | ret (m : L)

/-- lowerFromCIRToLLVMIR, parametric over the external driver, the module
verifier and the LLVM IR translation: runs the three-pass pipeline, calls
report_fatal_error when the pass manager fails, verifies the final module
and calls report_fatal_error on verification failure, then translates to
LLVM IR, calling report_fatal_error when translation yields no module, and
otherwise returns the translated module. -/
def lowerFromCIRToLLVMIRG {M L : Type}
    (drive : ConvMode → TargetD → List String → M → M × Bool)
    (verify : M → Bool) (translateModuleToLLVMIR : M → Option L)
    (theModule : M) : LowerResult L :=
  let pmResult := runPM (cirPassPipelineG drive) theModule
  match pmResult.2 with
  | some _ =>
    LowerResult.fatal "The pass manager failed to lower CIR to LLVMIR dialect!"
  | none =>
    match verify pmResult.1 with
    | false => LowerResult.fatal "Verification of the final LLVMIR dialect failed!"
    | true =>
      match translateModuleToLLVMIR pmResult.1 with
      | none => LowerResult.fatal "Lowering from LLVMIR dialect to llvm IR failed!"
      | some llvmModule => LowerResult.ret llvmModule

/-- C10: lowerFromCIRToLLVMIR never returns an error value: every failure
path ends in a fatal error, and whenever it returns at all the returned
handle is the module the translation actually produced (non-null). -/
theorem lowerFromCIRToLLVMIR_no_error_return {M L : Type}
    (drive : ConvMode → TargetD → List String → M → M × Bool)
    (verify : M → Bool) (translateModuleToLLVMIR : M → Option L)
    (theModule : M) :
    (∃ msg, lowerFromCIRToLLVMIRG drive verify translateModuleToLLVMIR theModule
       = LowerResult.fatal msg) ∨
    (∃ lm, lowerFromCIRToLLVMIRG drive verify translateModuleToLLVMIR theModule
       = LowerResult.ret lm ∧
       translateModuleToLLVMIR (runPM (cirPassPipelineG drive) theModule).1
         = some lm) := by
  unfold lowerFromCIRToLLVMIRG
  cases hpm : (runPM (cirPassPipelineG drive) theModule).2 with
  | some i =>
    exact Or.inl ⟨"The pass manager failed to lower CIR to LLVMIR dialect!",
      by simp [hpm]⟩
  | none =>
    cases hv : verify (runPM (cirPassPipelineG drive) theModule).1 with
    | false =>
      exact Or.inl ⟨"Verification of the final LLVMIR dialect failed!",
        by simp [hpm, hv]⟩
    | true =>
      cases ht : translateModuleToLLVMIR (runPM (cirPassPipelineG drive) theModule).1 with
      | none =>
        exact Or.inl ⟨"Lowering from LLVMIR dialect to llvm IR failed!",
          by simp [hpm, hv, ht]⟩
      | some lm =>
        refine Or.inr ⟨lm, ?_, ?_⟩ <;> simp [hpm, hv, ht]

/-- A basic block: argument value ids with their types, and operations. -/
structure BlockD where
  argIds : List Nat
  argTypes : List Ty
  ops : List OpF
deriving Repr, DecidableEq

/-- A region: an ordered list of blocks. -/
structure RegionD where
  blocks : List BlockD
deriving Repr, DecidableEq

/-- Result ids defined by a list of operations. -/
def opsDefs : List OpF → List Nat
  | [] => []
  | op :: rest => op.results ++ opsDefs rest

/-- Value ids defined inside a block: its arguments and its ops' results. -/
def BlockD.defs (b : BlockD) : List Nat := b.argIds ++ opsDefs b.ops

/-- Value ids defined by a list of blocks. -/
def blocksDefs : List BlockD → List Nat
  | [] => []
  | b :: rest => b.defs ++ blocksDefs rest

/-- Value ids defined inside a region: block arguments and op results. -/
def RegionD.defs (r : RegionD) : List Nat := blocksDefs r.blocks

/-- First fresh id used by the clone: one past every id the region defines;
fresh cloned values are new Value objects, modelled as ids the source
region does not define. -/
def RegionD.freshBase (r : RegionD) : Nat := r.defs.foldr Nat.max 0 + 1

/-- Value map of the clone (BlockAndValueMapping): newest entries first; an
unmapped id — a value defined outside the cloned region — is returned
unchanged (lookupOrValue semantics). -/
def lookupOrDefault (mp : List (Nat × Nat)) (v : Nat) : Nat :=
  match mp.lookup v with
  | some w => w
  | none => v

/-- Consecutive fresh ids next, next+1, ..., next+k-1. -/
def newIds (next k : Nat) : List Nat := (List.range k).map (fun j => next + j)

/-- Modelled from the spec: cloning one operation during Region::cloneInto
(Operation::clone, not under src/) — every operand reference is rewritten
through the value map, results get fresh ids, everything else is copied. -/
def cloneOpF (mp : List (Nat × Nat)) (next : Nat) (op : OpF) : OpF :=
  { name := op.name, operands := op.operands.map (lookupOrDefault mp),
    results := newIds next op.results.length,
    resultTypes := op.resultTypes, attrs := op.attrs }

/-- Modelled from the spec: cloning a block's operations in original order,
building the old-to-new value map incrementally — each op's fresh results
are added to the map before the following ops are cloned. -/
def cloneOps : List (Nat × Nat) → Nat → List OpF → List OpF × List (Nat × Nat) × Nat
  | mp, next, [] => ([], mp, next)
  | mp, next, op :: rest =>
    let mp' := op.results.zip (newIds next op.results.length) ++ mp
    let r := cloneOps mp' (next + op.results.length) rest
    (cloneOpF mp next op :: r.1, r.2)

/-- Modelled from the spec: cloning the blocks of a region in original
order; each block gets fresh argument ids which are added to the value map
before its operations are cloned. -/
def cloneBlocks : List (Nat × Nat) → Nat → List BlockD → List BlockD × List (Nat × Nat) × Nat
  | mp, next, [] => ([], mp, next)
  | mp, next, b :: rest =>
    let newArgs := newIds next b.argIds.length
    let mp1 := b.argIds.zip newArgs ++ mp
    let r1 := cloneOps mp1 (next + b.argIds.length) b.ops
    let r2 := cloneBlocks r1.2.1 r1.2.2 rest
    ({ argIds := newArgs, argTypes := b.argTypes, ops := r1.1 } :: r2.1, r2.2)

/-- Modelled from the spec: Region::cloneInto with a fresh
BlockAndValueMapping (not under src/) — a full structural deep copy of all
blocks in original order, every internal value reference rewritten through
the incrementally built old-to-new map. -/
def RegionD.cloneInto (r : RegionD) : RegionD :=
  ⟨(cloneBlocks [] r.freshBase r.blocks).1⟩

/-- A function operation: symbol name, function type and body region. -/
structure FuncOp where
  symName : String
  fnType : FnTy
  body : RegionD
deriving Repr, DecidableEq

/-- CIRFuncLowering.matchAndRewrite: replaceOpWithNewOp<func::FuncOp>(op,
op.getName(), op.getFunctionType()) creates the new function with the same
symbol name and function type and an empty body, then
srcRegion.cloneInto(&dstRegion, mapper) deep-copies the body into it. -/
def cirFuncLowering (f : FuncOp) : FuncOp :=
  { symName := f.symName, fnType := f.fnType, body := f.body.cloneInto }

/-- Def-before-use in traversal order for the ops of one block: each operand
is either already defined (in seen) or defined outside the region (not in
all). -/
def wellOrderedOps (seen all : List Nat) : List OpF → Bool
  | [] => true
  | op :: rest =>
    op.operands.all (fun v => decide (v ∈ seen) || decide (v ∉ all)) &&
    wellOrderedOps (seen ++ op.results) all rest

/-- Def-before-use in traversal order across the blocks of a region. -/
def wellOrderedBlocks (seen all : List Nat) : List BlockD → Bool
  | [] => true
  | b :: rest =>
    wellOrderedOps (seen ++ b.argIds) all b.ops &&
    wellOrderedBlocks (seen ++ b.defs) all rest

/-- SSA well-formedness of a region: every internal operand reference is to
a value defined earlier in traversal order. -/
def RegionD.wellFormed (r : RegionD) : Bool :=
  wellOrderedBlocks [] r.defs r.blocks

/-- Structural skeleton of an op: everything except the value ids. -/
def OpF.skeleton (op : OpF) :
    String × Nat × Nat × List Ty × List (String × Attr) :=
  (op.name, op.operands.length, op.results.length, op.resultTypes, op.attrs)

/-- Structural skeleton of a block: argument count and types, op skeletons. -/
def BlockD.skeleton (b : BlockD) :
    Nat × List Ty × List (String × Nat × Nat × List Ty × List (String × Attr)) :=
  (b.argIds.length, b.argTypes, b.ops.map OpF.skeleton)

/-- Structural skeleton of a region. -/
def RegionD.skeleton (r : RegionD) :
    List (Nat × List Ty × List (String × Nat × Nat × List Ty × List (String × Attr))) :=
  r.blocks.map BlockD.skeleton

/-- Every member of a list is at most its foldr-max. -/
theorem mem_le_foldr_max (l : List Nat) (v : Nat) (h : v ∈ l) :
    v ≤ l.foldr Nat.max 0 := by
  induction l with
  | nil => cases h
  | cons a rest ih =>
    rcases List.mem_cons.mp h with rfl | hrest
    · exact Nat.le_max_left _ _
    · exact Nat.le_trans (ih hrest) (Nat.le_max_right _ _)

/-- Length of a fresh-id block. -/
theorem newIds_length (next k : Nat) : (newIds next k).length = k := by
  simp [newIds]

/-- Fresh ids are at least the counter. -/
theorem mem_newIds {next k w : Nat} (h : w ∈ newIds next k) : next ≤ w := by
  simp only [newIds, List.mem_map, List.mem_range] at h
  obtain ⟨j, _, hj⟩ := h
  omega

/-- Keys of the zip of a list with its fresh ids are the list itself. -/
theorem zip_newIds_keys (l : List Nat) (next : Nat) :
    (l.zip (newIds next l.length)).map Prod.fst = l :=
  List.map_fst_zip l _ (by simp [newIds_length])

/-- Values of the zip of a list with its fresh ids are at least the counter. -/
theorem zip_newIds_snd {l : List Nat} {next : Nat} {p : Nat × Nat}
    (h : p ∈ l.zip (newIds next l.length)) : next ≤ p.2 := by
  obtain ⟨a, b⟩ := p
  exact mem_newIds (List.of_mem_zip h).2

/-- A successful lookup pair is a member of the association list. -/
theorem mem_of_lookup_eq_some {mp : List (Nat × Nat)} {v w : Nat}
    (h : mp.lookup v = some w) : (v, w) ∈ mp := by
  obtain ⟨l₁, l₂, hsplit, -⟩ := List.lookup_eq_some_iff.mp h
  subst hsplit
  simp

/-- A key of the association list has a successful lookup. -/
theorem lookup_isSome_of_mem_keys {mp : List (Nat × Nat)} {v : Nat}
    (h : v ∈ mp.map Prod.fst) : ∃ w, mp.lookup v = some w := by
  obtain ⟨p, hp, hv⟩ := List.mem_map.mp h
  have hs : (mp.lookup v).isSome := by
    rw [List.lookup_isSome_iff]
    exact ⟨p, hp, by rw [hv]; simp⟩
  exact Option.isSome_iff_exists.mp hs

/-- Lookup in an appended association list succeeds when it succeeds in
either part. -/
theorem lookup_append_isSome {l₁ l₂ : List (Nat × Nat)} {v : Nat}
    (h : (∃ w, l₁.lookup v = some w) ∨ (∃ w, l₂.lookup v = some w)) :
    ∃ w, (l₁ ++ l₂).lookup v = some w := by
  rw [List.lookup_append]
  cases hl : l₁.lookup v with
  | some w => exact ⟨w, rfl⟩
  | none =>
    cases h with
    | inl h1 => obtain ⟨w, hw⟩ := h1; rw [hw] at hl; cases hl
    | inr h2 => obtain ⟨w, hw⟩ := h2; rw [hw]; exact ⟨w, rfl⟩

/-- The remapped image of an operand that is either already mapped or
external never lands among the region's internal defs. -/
theorem lookupOrDefault_not_mem_all {all : List Nat} {N0 : Nat}
    (hall : ∀ u ∈ all, u < N0) {mp : List (Nat × Nat)}
    (hrange : ∀ p ∈ mp, N0 ≤ p.2)
    {seen : List Nat} (hdom : ∀ u ∈ seen, ∃ w, mp.lookup u = some w)
    {v : Nat} (hv : v ∈ seen ∨ v ∉ all) :
    lookupOrDefault mp v ∉ all := by
  unfold lookupOrDefault
  cases hl : mp.lookup v with
  | some w =>
    intro hmem
    have h1 := hrange (v, w) (mem_of_lookup_eq_some hl)
    have h2 := hall w hmem
    simp at h1
    omega
  | none =>
    cases hv with
    | inl hseen =>
      obtain ⟨w, hw⟩ := hdom v hseen
      rw [hw] at hl
      cases hl
    | inr hnot => exact hnot

/-- Invariants of cloning a list of ops: the map's image stays fresh, its
domain covers everything defined so far, the counter stays fresh, no cloned
operand hits the region's internal defs, and the skeleton is preserved. -/
theorem cloneOps_spec (all : List Nat) (N0 : Nat)
    (hall : ∀ u ∈ all, u < N0) :
    ∀ (ops : List OpF) (mp : List (Nat × Nat)) (next : Nat) (seen : List Nat),
    (∀ p ∈ mp, N0 ≤ p.2) →
    (∀ u ∈ seen, ∃ w, mp.lookup u = some w) →
    N0 ≤ next →
    wellOrderedOps seen all ops = true →
    (∀ p ∈ (cloneOps mp next ops).2.1, N0 ≤ p.2) ∧
    (∀ u, u ∈ seen ∨ u ∈ opsDefs ops →
       ∃ w, (cloneOps mp next ops).2.1.lookup u = some w) ∧
    N0 ≤ (cloneOps mp next ops).2.2 ∧
    (∀ op' ∈ (cloneOps mp next ops).1, ∀ v ∈ op'.operands, v ∉ all) ∧
    (cloneOps mp next ops).1.map OpF.skeleton = ops.map OpF.skeleton := by
  intro ops
  induction ops with
  | nil =>
    intro mp next seen hrange hdom hnext _
    refine ⟨hrange, ?_, hnext, by simp [cloneOps], by simp [cloneOps]⟩
    intro u hu
    rcases hu with hu | hu
    · exact hdom u hu
    · simp [opsDefs] at hu
  | cons op rest ih =>
    intro mp next seen hrange hdom hnext hwo
    simp only [wellOrderedOps, Bool.and_eq_true] at hwo
    obtain ⟨hwo1, hwo2⟩ := hwo
    have hred : cloneOps mp next (op :: rest) =
        (cloneOpF mp next op ::
           (cloneOps (op.results.zip (newIds next op.results.length) ++ mp)
             (next + op.results.length) rest).1,
         (cloneOps (op.results.zip (newIds next op.results.length) ++ mp)
           (next + op.results.length) rest).2) := rfl
    have hrange' : ∀ p ∈ op.results.zip (newIds next op.results.length) ++ mp,
        N0 ≤ p.2 := by
      intro p hp
      rcases List.mem_append.mp hp with hz | hm
      · exact Nat.le_trans hnext (zip_newIds_snd hz)
      · exact hrange p hm
    have hdom' : ∀ u ∈ seen ++ op.results,
        ∃ w, (op.results.zip (newIds next op.results.length) ++ mp).lookup u
          = some w := by
      intro u hu
      rcases List.mem_append.mp hu with hs | hr
      · exact lookup_append_isSome (Or.inr (hdom u hs))
      · refine lookup_append_isSome (Or.inl ?_)
        apply lookup_isSome_of_mem_keys
        rw [zip_newIds_keys]
        exact hr
    have hnext' : N0 ≤ next + op.results.length := by omega
    have ihr := ih (op.results.zip (newIds next op.results.length) ++ mp)
      (next + op.results.length) (seen ++ op.results) hrange' hdom' hnext' hwo2
    rw [hred]
    refine ⟨ihr.1, ?_, ihr.2.2.1, ?_, ?_⟩
    · intro u hu
      apply ihr.2.1
      rcases hu with hu | hu
      · exact Or.inl (List.mem_append.mpr (Or.inl hu))
      · rcases List.mem_append.mp (by simpa [opsDefs] using hu) with h1 | h2
        · exact Or.inl (List.mem_append.mpr (Or.inr h1))
        · exact Or.inr h2
    · intro op' hop' v hv
      rcases List.mem_cons.mp hop' with rfl | htail
      · simp only [cloneOpF, List.mem_map] at hv
        obtain ⟨u, hu, huv⟩ := hv
        have hcase : u ∈ seen ∨ u ∉ all := by
          have := List.all_eq_true.mp hwo1 u hu
          simpa [Bool.or_eq_true, decide_eq_true_eq] using this
        subst huv
        exact lookupOrDefault_not_mem_all hall hrange hdom hcase
      · exact ihr.2.2.2.1 op' htail v hv
    · simp only [List.map_cons, ihr.2.2.2.2]
      congr 1
      simp [cloneOpF, OpF.skeleton, newIds_length]

/-- Invariants of cloning a list of blocks, analogous to cloneOps_spec. -/
theorem cloneBlocks_spec (all : List Nat) (N0 : Nat)
    (hall : ∀ u ∈ all, u < N0) :
    ∀ (bs : List BlockD) (mp : List (Nat × Nat)) (next : Nat) (seen : List Nat),
    (∀ p ∈ mp, N0 ≤ p.2) →
    (∀ u ∈ seen, ∃ w, mp.lookup u = some w) →
    N0 ≤ next →
    wellOrderedBlocks seen all bs = true →
    (∀ p ∈ (cloneBlocks mp next bs).2.1, N0 ≤ p.2) ∧
    (∀ u, u ∈ seen ∨ u ∈ blocksDefs bs →
       ∃ w, (cloneBlocks mp next bs).2.1.lookup u = some w) ∧
    N0 ≤ (cloneBlocks mp next bs).2.2 ∧
    (∀ b ∈ (cloneBlocks mp next bs).1, ∀ op ∈ b.ops,
       ∀ v ∈ op.operands, v ∉ all) ∧
    (cloneBlocks mp next bs).1.map BlockD.skeleton = bs.map BlockD.skeleton := by
  intro bs
  induction bs with
  | nil =>
    intro mp next seen hrange hdom hnext _
    refine ⟨hrange, ?_, hnext, by simp [cloneBlocks], by simp [cloneBlocks]⟩
    intro u hu
    rcases hu with hu | hu
    · exact hdom u hu
    · simp [blocksDefs] at hu
  | cons b rest ih =>
    intro mp next seen hrange hdom hnext hwo
    simp only [wellOrderedBlocks, Bool.and_eq_true] at hwo
    obtain ⟨hwo1, hwo2⟩ := hwo
    have hred : cloneBlocks mp next (b :: rest) =
        ({ argIds := newIds next b.argIds.length, argTypes := b.argTypes,
           ops := (cloneOps (b.argIds.zip (newIds next b.argIds.length) ++ mp)
             (next + b.argIds.length) b.ops).1 } ::
           (cloneBlocks
             (cloneOps (b.argIds.zip (newIds next b.argIds.length) ++ mp)
               (next + b.argIds.length) b.ops).2.1
             (cloneOps (b.argIds.zip (newIds next b.argIds.length) ++ mp)
               (next + b.argIds.length) b.ops).2.2 rest).1,
         (cloneBlocks
           (cloneOps (b.argIds.zip (newIds next b.argIds.length) ++ mp)
             (next + b.argIds.length) b.ops).2.1
           (cloneOps (b.argIds.zip (newIds next b.argIds.length) ++ mp)
             (next + b.argIds.length) b.ops).2.2 rest).2) := rfl
    have hrange1 : ∀ p ∈ b.argIds.zip (newIds next b.argIds.length) ++ mp,
        N0 ≤ p.2 := by
      intro p hp
      rcases List.mem_append.mp hp with hz | hm
      · exact Nat.le_trans hnext (zip_newIds_snd hz)
      · exact hrange p hm
    have hdom1 : ∀ u ∈ seen ++ b.argIds,
        ∃ w, (b.argIds.zip (newIds next b.argIds.length) ++ mp).lookup u
          = some w := by
      intro u hu
      rcases List.mem_append.mp hu with hs | hr
      · exact lookup_append_isSome (Or.inr (hdom u hs))
      · refine lookup_append_isSome (Or.inl ?_)
        apply lookup_isSome_of_mem_keys
        rw [zip_newIds_keys]
        exact hr
    have hnext1 : N0 ≤ next + b.argIds.length := by omega
    have hops := cloneOps_spec all N0 hall b.ops
      (b.argIds.zip (newIds next b.argIds.length) ++ mp)
      (next + b.argIds.length) (seen ++ b.argIds) hrange1 hdom1 hnext1 hwo1
    have hdom2 : ∀ u ∈ seen ++ b.defs,
        ∃ w, (cloneOps (b.argIds.zip (newIds next b.argIds.length) ++ mp)
          (next + b.argIds.length) b.ops).2.1.lookup u = some w := by
      intro u hu
      apply hops.2.1
      rcases List.mem_append.mp hu with hs | hd
      · exact Or.inl (List.mem_append.mpr (Or.inl hs))
      · rcases List.mem_append.mp (by simpa [BlockD.defs] using hd) with h1 | h2
        · exact Or.inl (List.mem_append.mpr (Or.inr h1))
        · exact Or.inr h2
    have ihr := ih
      (cloneOps (b.argIds.zip (newIds next b.argIds.length) ++ mp)
        (next + b.argIds.length) b.ops).2.1
      (cloneOps (b.argIds.zip (newIds next b.argIds.length) ++ mp)
        (next + b.argIds.length) b.ops).2.2
      (seen ++ b.defs) hops.1 hdom2 hops.2.2.1 hwo2
    rw [hred]
    refine ⟨ihr.1, ?_, ihr.2.2.1, ?_, ?_⟩
    · intro u hu
      apply ihr.2.1
      rcases hu with hu | hu
      · exact Or.inl (List.mem_append.mpr (Or.inl hu))
      · rcases List.mem_append.mp (by simpa [blocksDefs] using hu) with h1 | h2
        · exact Or.inl (List.mem_append.mpr (Or.inr h1))
        · exact Or.inr h2
    · intro bl hbl op hop v hv
      rcases List.mem_cons.mp hbl with rfl | htail
      · exact hops.2.2.2.1 op hop v hv
      · exact ihr.2.2.2.1 bl htail op hop v hv
    · simp only [List.map_cons, ihr.2.2.2.2]
      congr 1
      simp [BlockD.skeleton, newIds_length, hops.2.2.2.2]

/-- Region::cloneInto on a well-formed region: no operand of any cloned op
references a value the source region defines, and the structural skeleton is
preserved. -/
theorem cloneInto_spec (r : RegionD) (h : r.wellFormed = true) :
    (∀ b ∈ r.cloneInto.blocks, ∀ op ∈ b.ops, ∀ v ∈ op.operands, v ∉ r.defs) ∧
    r.cloneInto.skeleton = r.skeleton := by
  have hall : ∀ u ∈ r.defs, u < r.freshBase := fun u hu =>
    Nat.lt_succ_of_le (mem_le_foldr_max _ u hu)
  have hs := cloneBlocks_spec r.defs r.freshBase hall r.blocks [] r.freshBase []
    (by intro p hp; cases hp) (by intro u hu; cases hu) (Nat.le_refl _) h
  exact ⟨fun b hb => hs.2.2.2.1 b hb, hs.2.2.2.2⟩

/-- C3: the function-lowering pattern produces a function with the identical
symbol name and function type whose body is a full structural deep copy of
the original body region with every internal value reference remapped: no
operand in the new body references a value defined by the erased original
body. -/
theorem cirFuncLowering_deep_copy (f : FuncOp) (h : f.body.wellFormed = true) :
    (cirFuncLowering f).symName = f.symName ∧
    (cirFuncLowering f).fnType = f.fnType ∧
    (cirFuncLowering f).body.skeleton = f.body.skeleton ∧
    (∀ b ∈ (cirFuncLowering f).body.blocks, ∀ op ∈ b.ops,
       ∀ v ∈ op.operands, v ∉ f.body.defs) := by
  have hc := cloneInto_spec f.body h
  exact ⟨rfl, rfl, hc.2, hc.1⟩

/-- A concrete well-formed cir.func: one block with one argument, a constant,
a store of the constant into the argument, and a return. -/
def funcOp0 : FuncOp :=
  { symName := "foo",
    fnType := { args := [Ty.ptr (Ty.i 32)], res := [] },
    body :=
      ⟨[{ argIds := [1], argTypes := [Ty.ptr (Ty.i 32)],
          ops :=
            [{ name := "cir.cst", operands := [], results := [2],
               resultTypes := [Ty.i 32], attrs := [("value", Attr.intLit 4)] },
             { name := "cir.store", operands := [2, 1], results := [],
               resultTypes := [], attrs := [] },
             { name := "cir.return", operands := [], results := [],
               resultTypes := [], attrs := [] }] }]⟩ }

theorem cirFuncLowering_deep_copy_witness :
    funcOp0.body.wellFormed = true ∧
    ((cirFuncLowering funcOp0).symName = funcOp0.symName ∧
     (cirFuncLowering funcOp0).fnType = funcOp0.fnType ∧
     (cirFuncLowering funcOp0).body.skeleton = funcOp0.body.skeleton ∧
     (∀ b ∈ (cirFuncLowering funcOp0).body.blocks, ∀ op ∈ b.ops,
        ∀ v ∈ op.operands, v ∉ funcOp0.body.defs)) :=
  ⟨by decide, cirFuncLowering_deep_copy funcOp0 (by decide)⟩
